import Mathlib

/-!
Shallow embedding of the `fsm-generator` Go library (package `pkg/fsm` plus
the `examples/mod3` consumer).  Go hash maps (`map[K]V`) are modelled as
association lists without duplicate keys, and Go membership sets
(`map[S]struct{}`) as duplicate-free lists; insertion appends new entries and
overwrites existing ones in place, mirroring Go map assignment.  The Go
`panic` in `Builder.On` is modelled by returning `none`, and Go's
`(value, error)` returns by `Except`.
-/

namespace FsmGen

/-- Lookup in an association-list model of a Go map: the first binding of the
key, if any. -/
def mapLookup {K V : Type} [DecidableEq K] : List (K × V) → K → Option V
  | [], _ => none
  | (k, v) :: rest, key => if k = key then some v else mapLookup rest key

/-- Insertion in an association-list model of a Go map: overwrite the existing
binding in place, otherwise append a new one. -/
def mapInsert {K V : Type} [DecidableEq K] : List (K × V) → K → V → List (K × V)
  | [], key, v => [(key, v)]
  | (k, w) :: rest, key, v =>
    if k = key then (key, v) :: rest else (k, w) :: mapInsert rest key v

/-- Insertion in a list model of a Go membership set `map[S]struct{}`: add the
element at the end unless already present. -/
def setInsert {A : Type} [DecidableEq A] (l : List A) (a : A) : List A :=
  if a ∈ l then l else l ++ [a]

/-- TransitionKey from `machine.go`: a (state, symbol) composite key. -/
structure TransitionKey (S Sym : Type) where
  From : S
  Symbol : Sym
deriving DecidableEq, Repr

/-- TransitionError from `errors.go`: a runtime step failure carrying the
offending state and symbol. -/
structure TransitionError (S Sym : Type) where
  From : S
  Symbol : Sym
deriving DecidableEq, Repr

/-- buildOptions from `options.go` (the full five-flag variant used by the
claims). -/
structure buildOptions where
  preventOverwriteTransitions : Bool := false
  requireTotalTransitions : Bool := false
  requireAtLeastOneAccepting : Bool := false
  errorOnUnreachableStates : Bool := false
  errorWhenNoAcceptingReachable : Bool := false
deriving DecidableEq, Repr

/-- The distinct validation failures produced by `newBuildError` calls in
`builder.go`, one constructor per distinct message, carrying the formatted
data. -/
inductive BuildError (S Sym : Type) where
  | initialNotSet
  | noStates
  | noSymbols
  | acceptingUnknown (s : S)
  | transitionFromUnknown (s : S)
  | transitionUnknownSymbol (sym : Sym)
  | transitionToUnknown (s : S)
  | missingTransition (s : S) (sym : Sym)
  | noAcceptingState
  | unreachableState (s : S)
  | noAcceptingReachable
deriving DecidableEq, Repr

/-- Machine from `machine.go`: immutable snapshot of initial state,
accepting set and transition map. -/
structure Machine (S Sym : Type) where
  initialState : S
  accepting : List S
  transitions : List (TransitionKey S Sym × S)
deriving DecidableEq, Repr

/-- Runner from `options.go`: a machine reference plus a current-state
cursor. -/
structure Runner (S Sym : Type) where
  machine : Machine S Sym
  state : S
deriving DecidableEq, Repr

/-- Builder from `builder.go`. -/
structure Builder (S Sym : Type) where
  states : List S
  symbols : List Sym
  initialSet : Bool
  initialState : S
  accepting : List S
  transitions : List (TransitionKey S Sym × S)
  options : buildOptions
deriving DecidableEq, Repr

variable {S Sym : Type} [DecidableEq S] [DecidableEq Sym]

/-- NewBuilder: empty maps, options applied; `initialState` holds the Go
zero value (`default`) until `SetInitial` runs. -/
def NewBuilder (S Sym : Type) [Inhabited S] (opts : buildOptions) : Builder S Sym :=
  { states := [], symbols := [], initialSet := false, initialState := default,
    accepting := [], transitions := [], options := opts }

/-- AddState: registers the state; when `isAccepting` also adds it
to the accepting set. -/
def Builder.AddState (b : Builder S Sym) (state : S) (isAccepting : Bool) : Builder S Sym :=
  { b with
    states := setInsert b.states state,
    accepting := if isAccepting then setInsert b.accepting state else b.accepting }

/-- SetInitial: designates q0 and implicitly registers it. -/
def Builder.SetInitial (b : Builder S Sym) (state : S) : Builder S Sym :=
  { b with initialSet := true, initialState := state, states := setInsert b.states state }

/-- AddSymbol: registers an input symbol. -/
def Builder.AddSymbol (b : Builder S Sym) (sym : Sym) : Builder S Sym :=
  { b with symbols := setInsert b.symbols sym }

/-- On: implicitly registers `f`, `t` and `sym`, then records the
transition.  The Go `panic` on a duplicate (from, symbol) under
`preventOverwriteTransitions` is modelled as `none`. -/
def Builder.On (b : Builder S Sym) (f : S) (sym : Sym) (t : S) : Option (Builder S Sym) :=
  let b1 : Builder S Sym :=
    { b with
      states := setInsert (setInsert b.states f) t,
      symbols := setInsert b.symbols sym }
  if (mapLookup b.transitions ⟨f, sym⟩).isSome && b.options.preventOverwriteTransitions then
    none
  else
    some { b1 with transitions := mapInsert b1.transitions ⟨f, sym⟩ t }

/-- checkRequireTotalTransitions (builder.go:70-82): one failure per
(state, symbol) pair with no recorded transition. -/
def Builder.checkRequireTotalTransitions (b : Builder S Sym) : List (BuildError S Sym) :=
  if !b.options.requireTotalTransitions then []
  else
    b.states.flatMap fun s =>
      b.symbols.filterMap fun sym =>
        if (mapLookup b.transitions ⟨s, sym⟩).isSome then none
        else some (.missingTransition s sym)

/-- checkRequireAtLeastOneAccepting (builder.go:84-88). -/
def Builder.checkRequireAtLeastOneAccepting (b : Builder S Sym) : List (BuildError S Sym) :=
  if b.options.requireAtLeastOneAccepting && b.accepting.isEmpty then [.noAcceptingState]
  else []

/-- One expansion pass of the reachability traversal: scan every transition
once and add the target of each transition whose source is already reached. -/
def reachStep (trans : List (TransitionKey S Sym × S)) (acc : List S) : List S :=
  trans.foldl (fun acc kv => if kv.1.From ∈ acc then setInsert acc kv.2 else acc) acc

/-- The set of states the BFS in `checkReachability` (builder.go:94-108)
reaches from `q0`.  The Go worklist loop computes the closure of `{q0}` under
the transition edges; here the closure is reached by iterating a full pass
over the transition list, which stabilises after at most `trans.length`
passes (each productive pass adds at least one of the at most `trans.length`
distinct targets). -/
def reachableFrom (trans : List (TransitionKey S Sym × S)) (q0 : S) : List S :=
  (reachStep trans)^[trans.length] [q0]

/-- checkReachability (builder.go:90-128): skipped when q0 is unset
or both reachability policies are off; otherwise reports each unreachable
registered state and/or a single no-accepting-reachable failure. -/
def Builder.checkReachability (b : Builder S Sym) : List (BuildError S Sym) :=
  if !b.initialSet ||
      !(b.options.errorOnUnreachableStates || b.options.errorWhenNoAcceptingReachable) then
    []
  else
    let reached := reachableFrom b.transitions b.initialState
    (if b.options.errorOnUnreachableStates then
      b.states.filterMap fun s =>
        if s ∈ reached then none else some (.unreachableState s)
    else []) ++
    (if b.options.errorWhenNoAcceptingReachable then
      if b.accepting.any (fun s => decide (s ∈ reached)) then [] else [.noAcceptingReachable]
    else [])

/-- The failures of the five always-on checks, in the order
`builder.go:131-161` appends them: q0 set, Q non-empty, alphabet non-empty,
F ⊆ Q, and transition endpoints/symbols registered. -/
def Builder.alwaysOnErrors (b : Builder S Sym) : List (BuildError S Sym) :=
  (if !b.initialSet then [.initialNotSet] else []) ++
  (if b.states.isEmpty then [.noStates] else []) ++
  (if b.symbols.isEmpty then [.noSymbols] else []) ++
  (b.accepting.filterMap fun s =>
    if s ∈ b.states then none else some (.acceptingUnknown s)) ++
  (b.transitions.flatMap fun kv =>
    (if kv.1.From ∈ b.states then [] else [.transitionFromUnknown kv.1.From]) ++
    (if kv.1.Symbol ∈ b.symbols then [] else [.transitionUnknownSymbol kv.1.Symbol]) ++
    (if kv.2 ∈ b.states then [] else [.transitionToUnknown kv.2]))

/-- The validation-error list a single `Build` call accumulates, in the order
`builder.go:131-166` appends: always-on checks, then the three policy-gated
helpers. -/
def Builder.buildErrors (b : Builder S Sym) : List (BuildError S Sym) :=
  b.alwaysOnErrors ++
  b.checkRequireTotalTransitions ++
  b.checkRequireAtLeastOneAccepting ++
  b.checkReachability

/-- Build (builder.go:131-186): returns the aggregated error list
when any check failed, otherwise the immutable machine (a copy of the
accepting set and transition map plus q0). -/
def Builder.Build (b : Builder S Sym) : Except (List (BuildError S Sym)) (Machine S Sym) :=
  if b.buildErrors.isEmpty then
    .ok { initialState := b.initialState, accepting := b.accepting,
          transitions := b.transitions }
  else
    .error b.buildErrors

/-- Start: a fresh runner at q0. -/
def Machine.Start (m : Machine S Sym) : Runner S Sym :=
  { machine := m, state := m.initialState }

/-- Accepting: membership in the accepting set. -/
def Machine.Accepting (m : Machine S Sym) (state : S) : Bool :=
  decide (state ∈ m.accepting)

/-- InitialState of the machine. -/
def Machine.InitialState (m : Machine S Sym) : S :=
  m.initialState

/-- GetTransition: point lookup of the transition map. -/
def Machine.GetTransition (m : Machine S Sym) (f : S) (symbol : Sym) : Option S :=
  mapLookup m.transitions ⟨f, symbol⟩

/-- State: the current cursor. -/
def Runner.State (r : Runner S Sym) : S :=
  r.state

/-- Step: on an undefined (state, symbol) pair returns a
`TransitionError` and leaves the cursor untouched; otherwise moves the cursor
to the target.  The returned pair is (error, runner after the call),
mirroring the Go method's error return plus receiver mutation. -/
def Runner.Step (r : Runner S Sym) (sym : Sym) :
    Option (TransitionError S Sym) × Runner S Sym :=
  match mapLookup r.machine.transitions ⟨r.state, sym⟩ with
  | none => (some ⟨r.state, sym⟩, r)
  | some next => (none, { r with state := next })

/-- Stepping a runner through a whole input list, stopping at the first
failed step — the loop body of `Machine.Eval`. -/
def Runner.runList (r : Runner S Sym) : List Sym → Option (TransitionError S Sym) × Runner S Sym
  | [] => (none, r)
  | sym :: rest =>
    match r.Step sym with
    | (some e, r1) => (some e, r1)
    | (none, r1) => r1.runList rest

/-- Eval (machine.go): start a runner at q0, step it through the
input, return the first step error or the final state. -/
def Machine.Eval (m : Machine S Sym) (input : List Sym) : Except (TransitionError S Sym) S :=
  match m.Start.runList input with
  | (some e, _) => .error e
  | (none, r) => .ok r.State

/-- EvalAccepting: `Eval` composed with `Accepting`. -/
def Machine.EvalAccepting (m : Machine S Sym) (input : List Sym) :
    Except (TransitionError S Sym) Bool :=
  match m.Eval input with
  | .error e => .error e
  | .ok s => .ok (m.Accepting s)

/-- States (machine.go:54-85): the initial state, then unseen
accepting states, then unseen endpoints of each transition. -/
def Machine.States (m : Machine S Sym) : List S :=
  let s2 := m.accepting.foldl setInsert [m.initialState]
  m.transitions.foldl (fun acc kv => setInsert (setInsert acc kv.1.From) kv.2) s2

theorem runList_append (r : Runner S Sym) (s t : List Sym) :
    r.runList (s ++ t) =
      match r.runList s with
      | (some e, r1) => (some e, r1)
      | (none, r1) => r1.runList t := by
  induction s generalizing r with
  | nil => simp [Runner.runList]
  | cons sym rest ih =>
    simp only [List.cons_append, Runner.runList]
    cases h : r.Step sym with
    | mk e r1 =>
      cases e with
      | none => simpa using ih r1
      | some e0 => simp

/-- C1: evaluating a concatenation `s ++ t` equals running a fresh runner
through every symbol of `s` and then every symbol of `t`: both fail with the
same first `TransitionError`, and on success both end in the same final
state. -/
theorem eval_append_eq_runner_split (m : Machine S Sym) (s t : List Sym) :
    m.Eval (s ++ t) =
      match m.Start.runList s with
      | (some e, _) => Except.error e
      | (none, r) =>
        match r.runList t with
        | (some e, _) => Except.error e
        | (none, r1) => Except.ok r1.State := by
  unfold Machine.Eval
  rw [runList_append]
  cases h : m.Start.runList s with
  | mk e r1 =>
    cases e with
    | none => simp
    | some e0 => simp

/-- C8: evaluating the empty input returns q0 with no error. -/
theorem eval_nil_eq_initial (m : Machine S Sym) :
    m.Eval [] = Except.ok m.InitialState := by
  rfl

/-- C7: a step on an undefined (state, symbol) pair returns a
`TransitionError` carrying exactly that state and symbol and leaves the
cursor unchanged; a defined step moves the cursor to the target and returns
no error. -/
theorem step_undefined_or_target (r : Runner S Sym) (sym : Sym) :
    (mapLookup r.machine.transitions ⟨r.State, sym⟩ = none →
      r.Step sym = (some ⟨r.State, sym⟩, r)) ∧
    (∀ next, mapLookup r.machine.transitions ⟨r.State, sym⟩ = some next →
      r.Step sym = (none, { r with state := next })) := by
  constructor
  · intro h
    unfold Runner.Step
    rw [show (⟨r.State, sym⟩ : TransitionKey S Sym) = ⟨r.state, sym⟩ from rfl] at h
    rw [h]
    rfl
  · intro next h
    unfold Runner.Step
    rw [show (⟨r.State, sym⟩ : TransitionKey S Sym) = ⟨r.state, sym⟩ from rfl] at h
    rw [h]

theorem step_undefined_or_target_witness :
    (Runner.mk (Machine.mk 0 [0] [(⟨0, 1⟩, 2)]) 0).Step 5 =
      (some ⟨0, 5⟩, Runner.mk (Machine.mk 0 [0] [(⟨0, 1⟩, 2)]) 0) ∧
    (Runner.mk (Machine.mk 0 [0] [(⟨0, 1⟩, 2)]) 0).Step 1 =
      (none, Runner.mk (Machine.mk 0 [0] [(⟨0, 1⟩, 2)]) 2) :=
  ⟨(step_undefined_or_target (Runner.mk (Machine.mk 0 [0] [(⟨0, 1⟩, 2)]) 0) 5).1 (by decide),
   (step_undefined_or_target (Runner.mk (Machine.mk 0 [0] [(⟨0, 1⟩, 2)]) 0) 1).2 2 (by decide)⟩

theorem mapLookup_mapInsert_self {K V : Type} [DecidableEq K]
    (m : List (K × V)) (k : K) (v : V) :
    mapLookup (mapInsert m k v) k = some v := by
  induction m with
  | nil => simp [mapInsert, mapLookup]
  | cons kv rest ih =>
    by_cases h : kv.1 = k
    · simp [mapInsert, h, mapLookup]
    · simp [mapInsert, h, mapLookup, ih]

/-- C6: calling `On` for a (from, symbol) pair that already has a transition
aborts (Go: panics, modelled as `none`) under the reject-duplicates policy,
so `Build` is never reached on that path; without the policy it overwrites
the recorded target, so the later definition wins. -/
theorem on_duplicate_policy (b : Builder S Sym) (f : S) (sym : Sym) (t old : S)
    (hdup : mapLookup b.transitions ⟨f, sym⟩ = some old) :
    (b.options.preventOverwriteTransitions = true → b.On f sym t = none) ∧
    (b.options.preventOverwriteTransitions = false →
      ∃ b1, b.On f sym t = some b1 ∧ mapLookup b1.transitions ⟨f, sym⟩ = some t) := by
  constructor
  · intro hflag
    unfold Builder.On
    rw [hdup]
    simp [hflag]
  · intro hflag
    refine ⟨{ b with
        states := setInsert (setInsert b.states f) t,
        symbols := setInsert b.symbols sym,
        transitions := mapInsert b.transitions ⟨f, sym⟩ t }, ?_, ?_⟩
    · unfold Builder.On
      rw [hdup]
      simp [hflag]
    · exact mapLookup_mapInsert_self b.transitions ⟨f, sym⟩ t

theorem on_duplicate_policy_witness :
    (Builder.mk [0, 1] [1] true 0 [] [(⟨0, 1⟩, 1)]
        { preventOverwriteTransitions := true }).On 0 1 0 = none ∧
    ∃ b1, (Builder.mk [0, 1] [1] true 0 [] [(⟨0, 1⟩, 1)]
        { preventOverwriteTransitions := false }).On 0 1 0 = some b1 ∧
      mapLookup b1.transitions ⟨0, 1⟩ = some 0 :=
  ⟨(on_duplicate_policy (Builder.mk [0, 1] [1] true 0 [] [(⟨0, 1⟩, 1)]
      { preventOverwriteTransitions := true }) 0 1 0 1 (by decide)).1 rfl,
   (on_duplicate_policy (Builder.mk [0, 1] [1] true 0 [] [(⟨0, 1⟩, 1)]
      { preventOverwriteTransitions := false }) 0 1 0 1 (by decide)).2 rfl⟩

theorem mem_setInsert {A : Type} [DecidableEq A] (l : List A) (a x : A) :
    x ∈ setInsert l a ↔ x ∈ l ∨ x = a := by
  unfold setInsert
  split
  · constructor
    · exact Or.inl
    · rintro (h | rfl)
      · exact h
      · assumption
  · simp

theorem mem_foldl_setInsert (l : List S) (init : List S) (x : S) :
    x ∈ l.foldl setInsert init ↔ x ∈ init ∨ x ∈ l := by
  induction l generalizing init with
  | nil => simp
  | cons a rest ih =>
    rw [List.foldl_cons, ih, mem_setInsert]
    simp
    tauto

theorem mem_foldl_endpoints (trans : List (TransitionKey S Sym × S)) (init : List S) (x : S) :
    x ∈ trans.foldl (fun acc kv => setInsert (setInsert acc kv.1.From) kv.2) init ↔
      x ∈ init ∨ ∃ kv ∈ trans, kv.1.From = x ∨ kv.2 = x := by
  induction trans generalizing init with
  | nil => simp
  | cons kv rest ih =>
    rw [List.foldl_cons, ih, mem_setInsert, mem_setInsert]
    constructor
    · rintro ((⟨h | h⟩ | h) | ⟨kv1, h1, h2⟩)
      · exact Or.inl h
      · exact Or.inr ⟨kv, List.mem_cons_self kv rest, Or.inl h.symm⟩
      · exact Or.inr ⟨kv, List.mem_cons_self kv rest, Or.inr h.symm⟩
      · exact Or.inr ⟨kv1, List.mem_cons_of_mem kv h1, h2⟩
    · rintro (h | ⟨kv1, h1, h2⟩)
      · exact Or.inl (Or.inl (Or.inl h))
      · rcases List.mem_cons.mp h1 with rfl | h1
        · rcases h2 with h2 | h2
          · exact Or.inl (Or.inl (Or.inr h2.symm))
          · exact Or.inl (Or.inr h2.symm)
        · exact Or.inr ⟨kv1, h1, h2⟩

/-- C2 (amended): States() returns exactly q0 ∪ F ∪ the endpoints of the
recorded transitions; a Builder-registered state that is none of these does
not survive `Build` and is absent from the result. -/
theorem states_mem_spec (m : Machine S Sym) (x : S) :
    x ∈ m.States ↔
      x = m.initialState ∨ x ∈ m.accepting ∨
        ∃ kv ∈ m.transitions, kv.1.From = x ∨ kv.2 = x := by
  unfold Machine.States
  rw [mem_foldl_endpoints, mem_foldl_setInsert]
  simp only [List.mem_singleton, or_assoc]

/-- C2 (counterexample): a builder that registers state 5 (not accepting, not
q0, no transitions) builds successfully, yet 5 is absent from
`Machine.States` — so `States()` is not the set of all registered labels. -/
theorem states_not_all_registered_cex :
    ((((NewBuilder Nat Nat {}).AddState 5 false).SetInitial 0).AddSymbol 7).Build =
      Except.ok (Machine.mk 0 [] []) ∧
    5 ∈ ((((NewBuilder Nat Nat {}).AddState 5 false).SetInitial 0).AddSymbol 7).states ∧
    5 ∉ (Machine.mk 0 [] [] : Machine Nat Nat).States :=
  ⟨by rfl, by decide, by decide⟩

theorem memIfNilElse {A : Type} {p : Prop} [Decidable p] (l : List A) (a : A) :
    a ∈ (if p then l else []) ↔ p ∧ a ∈ l := by
  by_cases h : p <;> simp [h]

theorem memElseNil {A : Type} {p : Prop} [Decidable p] (l : List A) (a : A) :
    a ∈ (if p then [] else l) ↔ ¬p ∧ a ∈ l := by
  by_cases h : p <;> simp [h]

theorem iteNoneSomeEq {A : Type} {p : Prop} [Decidable p] (x y : A) :
    (if p then none else some x) = some y ↔ ¬p ∧ x = y := by
  by_cases h : p <;> simp [h]

theorem mem_checkTotal_iff (b : Builder S Sym) (e : BuildError S Sym) :
    e ∈ b.checkRequireTotalTransitions ↔
      b.options.requireTotalTransitions = true ∧
        ∃ s ∈ b.states, ∃ sym ∈ b.symbols,
          mapLookup b.transitions ⟨s, sym⟩ = none ∧ BuildError.missingTransition s sym = e := by
  unfold Builder.checkRequireTotalTransitions
  by_cases hT : b.options.requireTotalTransitions <;>
    simp [hT, List.mem_flatMap, List.mem_filterMap, iteNoneSomeEq, Option.not_isSome_iff_eq_none]

theorem mem_checkAccepting_iff (b : Builder S Sym) (e : BuildError S Sym) :
    e ∈ b.checkRequireAtLeastOneAccepting ↔
      b.options.requireAtLeastOneAccepting = true ∧ b.accepting = [] ∧
        e = BuildError.noAcceptingState := by
  unfold Builder.checkRequireAtLeastOneAccepting
  by_cases hA : b.options.requireAtLeastOneAccepting <;>
    by_cases hE : b.accepting.isEmpty <;>
      simp_all [List.isEmpty_iff]

theorem mem_checkReachability_iff (b : Builder S Sym) (e : BuildError S Sym) :
    e ∈ b.checkReachability ↔
      (b.initialSet = true ∧ b.options.errorOnUnreachableStates = true ∧
        ∃ s ∈ b.states, s ∉ reachableFrom b.transitions b.initialState ∧
          BuildError.unreachableState s = e) ∨
      (b.initialSet = true ∧ b.options.errorWhenNoAcceptingReachable = true ∧
        (∀ s ∈ b.accepting, s ∉ reachableFrom b.transitions b.initialState) ∧
          e = BuildError.noAcceptingReachable) := by
  unfold Builder.checkReachability
  by_cases hI : b.initialSet <;>
    by_cases hU : b.options.errorOnUnreachableStates <;>
      by_cases hN : b.options.errorWhenNoAcceptingReachable <;>
        simp [hI, hU, hN, List.mem_filterMap, List.mem_append, iteNoneSomeEq,
          List.any_eq_true]

/-- Membership characterisation of the aggregated validation-error list: an
error is reported iff the corresponding invariant is actually violated,
independently of all other checks. -/
theorem mem_buildErrors_iff (b : Builder S Sym) (e : BuildError S Sym) :
    e ∈ b.buildErrors ↔
      (b.initialSet = false ∧ e = BuildError.initialNotSet) ∨
      (b.states = [] ∧ e = BuildError.noStates) ∨
      (b.symbols = [] ∧ e = BuildError.noSymbols) ∨
      (∃ s ∈ b.accepting, s ∉ b.states ∧ BuildError.acceptingUnknown s = e) ∨
      (∃ kv ∈ b.transitions,
        (kv.1.From ∉ b.states ∧ e = BuildError.transitionFromUnknown kv.1.From) ∨
        (kv.1.Symbol ∉ b.symbols ∧ e = BuildError.transitionUnknownSymbol kv.1.Symbol) ∨
        (kv.2 ∉ b.states ∧ e = BuildError.transitionToUnknown kv.2)) ∨
      (b.options.requireTotalTransitions = true ∧
        ∃ s ∈ b.states, ∃ sym ∈ b.symbols,
          mapLookup b.transitions ⟨s, sym⟩ = none ∧ BuildError.missingTransition s sym = e) ∨
      (b.options.requireAtLeastOneAccepting = true ∧ b.accepting = [] ∧
        e = BuildError.noAcceptingState) ∨
      (b.initialSet = true ∧ b.options.errorOnUnreachableStates = true ∧
        ∃ s ∈ b.states, s ∉ reachableFrom b.transitions b.initialState ∧
          BuildError.unreachableState s = e) ∨
      (b.initialSet = true ∧ b.options.errorWhenNoAcceptingReachable = true ∧
        (∀ s ∈ b.accepting, s ∉ reachableFrom b.transitions b.initialState) ∧
          e = BuildError.noAcceptingReachable) := by
  unfold Builder.buildErrors Builder.alwaysOnErrors
  rw [List.mem_append, List.mem_append, List.mem_append, List.mem_append, List.mem_append,
    List.mem_append, List.mem_append, mem_checkTotal_iff, mem_checkAccepting_iff,
    mem_checkReachability_iff]
  by_cases hI : b.initialSet <;>
    simp [hI, List.mem_filterMap, List.mem_flatMap, List.mem_append, iteNoneSomeEq,
      List.isEmpty_iff, memElseNil, or_assoc]

/-- C4: a single `Build` call aggregates every violated invariant — missing
q0, empty state set, empty alphabet, accepting state outside Q, transitions
with unregistered endpoints or symbols, and each enabled policy violation —
into one error list rather than stopping at the first failure; `Build`
succeeds exactly when no invariant is violated, and the only check skipped is
reachability when q0 was never set (both reachability error kinds require
`initialSet`). -/
theorem build_collects_all_failures (b : Builder S Sym) :
    ((∃ m, b.Build = Except.ok m) ↔ b.buildErrors = []) ∧
    (∀ es, b.Build = Except.error es → es = b.buildErrors) ∧
    (BuildError.initialNotSet ∈ b.buildErrors ↔ b.initialSet = false) ∧
    (BuildError.noStates ∈ b.buildErrors ↔ b.states = []) ∧
    (BuildError.noSymbols ∈ b.buildErrors ↔ b.symbols = []) ∧
    (∀ s, BuildError.acceptingUnknown s ∈ b.buildErrors ↔
      s ∈ b.accepting ∧ s ∉ b.states) ∧
    (∀ s, BuildError.transitionFromUnknown s ∈ b.buildErrors ↔
      (∃ kv ∈ b.transitions, kv.1.From = s) ∧ s ∉ b.states) ∧
    (∀ sym, BuildError.transitionUnknownSymbol sym ∈ b.buildErrors ↔
      (∃ kv ∈ b.transitions, kv.1.Symbol = sym) ∧ sym ∉ b.symbols) ∧
    (∀ s, BuildError.transitionToUnknown s ∈ b.buildErrors ↔
      (∃ kv ∈ b.transitions, kv.2 = s) ∧ s ∉ b.states) ∧
    (∀ s sym, BuildError.missingTransition s sym ∈ b.buildErrors ↔
      b.options.requireTotalTransitions = true ∧ s ∈ b.states ∧ sym ∈ b.symbols ∧
        mapLookup b.transitions ⟨s, sym⟩ = none) ∧
    (BuildError.noAcceptingState ∈ b.buildErrors ↔
      b.options.requireAtLeastOneAccepting = true ∧ b.accepting = []) ∧
    (∀ s, BuildError.unreachableState s ∈ b.buildErrors ↔
      b.initialSet = true ∧ b.options.errorOnUnreachableStates = true ∧
        s ∈ b.states ∧ s ∉ reachableFrom b.transitions b.initialState) ∧
    (BuildError.noAcceptingReachable ∈ b.buildErrors ↔
      b.initialSet = true ∧ b.options.errorWhenNoAcceptingReachable = true ∧
        ∀ s ∈ b.accepting, s ∉ reachableFrom b.transitions b.initialState) := by
  refine ⟨?_, ?_, ?_, ?_, ?_, ?_, ?_, ?_, ?_, ?_, ?_, ?_, ?_⟩
  · by_cases h : b.buildErrors.isEmpty
    · simp [Builder.Build, h, List.isEmpty_iff.mp h]
    · rw [show b.buildErrors = [] ↔ b.buildErrors.isEmpty = true from List.isEmpty_iff.symm]
      simp [Builder.Build, h]
  · intro es hes
    by_cases h : b.buildErrors.isEmpty <;> simp [Builder.Build, h] at hes
    exact hes.symm
  · rw [mem_buildErrors_iff]; simp
  · rw [mem_buildErrors_iff]; simp
  · rw [mem_buildErrors_iff]; simp
  · intro s; rw [mem_buildErrors_iff]; simp
  · intro s; rw [mem_buildErrors_iff]; simp; aesop
  · intro sym; rw [mem_buildErrors_iff]; simp; aesop
  · intro s; rw [mem_buildErrors_iff]; simp
  · intro s sym; rw [mem_buildErrors_iff]; simp; aesop
  · rw [mem_buildErrors_iff]; simp
  · intro s; rw [mem_buildErrors_iff]; simp
  · rw [mem_buildErrors_iff]; simp

theorem mem_total_row_iff (trans : List (TransitionKey S Sym × S)) (symbols : List Sym)
    (s1 s : S) (sym : Sym) :
    BuildError.missingTransition s sym ∈
        (symbols.filterMap fun y =>
          if (mapLookup trans ⟨s1, y⟩).isSome then none
          else some (BuildError.missingTransition s1 y)) ↔
      s1 = s ∧ sym ∈ symbols ∧ mapLookup trans ⟨s1, sym⟩ = none := by
  simp only [List.mem_filterMap, iteNoneSomeEq, Option.not_isSome_iff_eq_none,
    BuildError.missingTransition.injEq]
  constructor
  · rintro ⟨y, hy, hnone, rfl, rfl⟩
    exact ⟨rfl, hy, hnone⟩
  · rintro ⟨rfl, hy, hnone⟩
    exact ⟨sym, hy, hnone, rfl, rfl⟩

theorem count_total_row (trans : List (TransitionKey S Sym × S)) (s : S) (sym : Sym) :
    ∀ (symbols : List Sym), symbols.Nodup →
      (symbols.filterMap fun y =>
          if (mapLookup trans ⟨s, y⟩).isSome then none
          else some (BuildError.missingTransition s y)).count
            (BuildError.missingTransition s sym) =
        if sym ∈ symbols ∧ mapLookup trans ⟨s, sym⟩ = none then 1 else 0
  | [], _ => by simp
  | y :: rest, h => by
    have hy : y ∉ rest := (List.nodup_cons.mp h).1
    have ih := count_total_row trans s sym rest (List.nodup_cons.mp h).2
    cases hlk : mapLookup trans ⟨s, y⟩ with
    | some v =>
      have hstep : List.filterMap
          (fun y => if (mapLookup trans ⟨s, y⟩).isSome = true then none
            else some (BuildError.missingTransition s y)) (y :: rest) =
          List.filterMap
          (fun y => if (mapLookup trans ⟨s, y⟩).isSome = true then none
            else some (BuildError.missingTransition s y)) rest := by
        simp [List.filterMap_cons, hlk]
      rw [hstep, ih]
      by_cases hsy : sym = y
      · subst hsy
        simp [hy, hlk]
      · simp [List.mem_cons, hsy]
    | none =>
      have hstep : List.filterMap
          (fun y => if (mapLookup trans ⟨s, y⟩).isSome = true then none
            else some (BuildError.missingTransition s y)) (y :: rest) =
          BuildError.missingTransition s y :: List.filterMap
          (fun y => if (mapLookup trans ⟨s, y⟩).isSome = true then none
            else some (BuildError.missingTransition s y)) rest := by
        simp [List.filterMap_cons, hlk]
      rw [hstep, List.count_cons, ih]
      by_cases hsy : sym = y
      · subst hsy
        simp [hy, hlk]
      · simp [List.mem_cons, hsy, Ne.symm hsy]

theorem count_total_flatMap (trans : List (TransitionKey S Sym × S)) (s : S) (sym : Sym)
    (symbols : List Sym) (hy : symbols.Nodup) :
    ∀ (states : List S), states.Nodup →
      (states.flatMap fun s1 =>
          symbols.filterMap fun y =>
            if (mapLookup trans ⟨s1, y⟩).isSome then none
            else some (BuildError.missingTransition s1 y)).count
            (BuildError.missingTransition s sym) =
        if s ∈ states ∧ sym ∈ symbols ∧ mapLookup trans ⟨s, sym⟩ = none then 1 else 0
  | [], _ => by simp
  | a :: rest, h => by
    have ha : a ∉ rest := (List.nodup_cons.mp h).1
    have ih := count_total_flatMap trans s sym symbols hy rest (List.nodup_cons.mp h).2
    rw [List.flatMap_cons, List.count_append, ih]
    by_cases has : a = s
    · subst has
      rw [count_total_row trans a sym symbols hy]
      simp [ha]
    · have hz : (symbols.filterMap fun y =>
          if (mapLookup trans ⟨a, y⟩).isSome then none
          else some (BuildError.missingTransition a y)).count
            (BuildError.missingTransition s sym) = 0 := by
        refine List.count_eq_zero.mpr ?_
        rw [mem_total_row_iff]
        rintro ⟨rfl, -, -⟩
        exact has rfl
      rw [hz]
      simp [List.mem_cons, Ne.symm has]

/-- C3: with the require-total-transition-function policy on, a single build
reports exactly one `missing transition` failure for every (state, symbol)
pair of Q × alphabet lacking a recorded transition, and none for covered
pairs or unregistered ones. -/
theorem total_check_one_failure_per_missing_pair (b : Builder S Sym)
    (hT : b.options.requireTotalTransitions = true)
    (hs : b.states.Nodup) (hy : b.symbols.Nodup) (s : S) (sym : Sym) :
    b.buildErrors.count (BuildError.missingTransition s sym) =
      if s ∈ b.states ∧ sym ∈ b.symbols ∧ mapLookup b.transitions ⟨s, sym⟩ = none
      then 1 else 0 := by
  unfold Builder.buildErrors
  simp only [List.count_append]
  have z1 : ∀ (l : List (BuildError S Sym)),
      (∀ e ∈ l, e ≠ BuildError.missingTransition s sym) →
      l.count (BuildError.missingTransition s sym) = 0 := by
    intro l hl
    exact List.count_eq_zero.mpr fun hmem => hl _ hmem rfl
  have hAlways : b.alwaysOnErrors.count (BuildError.missingTransition s sym) = 0 := by
    refine z1 _ ?_
    intro e he
    unfold Builder.alwaysOnErrors at he
    rcases List.mem_append.mp he with he | he
    rotate_left
    · rcases List.mem_flatMap.mp he with ⟨kv, -, hkv⟩
      rcases List.mem_append.mp hkv with h | h
      · rcases List.mem_append.mp h with h1 | h1 <;>
          · rcases (memElseNil _ _).mp h1 with ⟨-, h2⟩
            simp at h2
            simp [h2]
      · rcases (memElseNil _ _).mp h with ⟨-, h2⟩
        simp at h2
        simp [h2]
    rcases List.mem_append.mp he with he | he
    rotate_left
    · rcases List.mem_filterMap.mp he with ⟨x, -, hx⟩
      rcases (iteNoneSomeEq _ _).mp hx with ⟨-, rfl⟩
      simp
    rcases List.mem_append.mp he with he | he
    rotate_left
    · rcases (memIfNilElse _ _).mp he with ⟨-, h⟩
      simp at h
      simp [h]
    rcases List.mem_append.mp he with he | he
    · rcases (memIfNilElse _ _).mp he with ⟨-, h⟩
      simp at h
      simp [h]
    · rcases (memIfNilElse _ _).mp he with ⟨-, h⟩
      simp at h
      simp [h]
  have hAcc : b.checkRequireAtLeastOneAccepting.count
      (BuildError.missingTransition s sym) = 0 := by
    refine z1 _ ?_
    intro e he
    rcases (mem_checkAccepting_iff b e).mp he with ⟨-, -, rfl⟩
    simp
  have hReach : b.checkReachability.count (BuildError.missingTransition s sym) = 0 := by
    refine z1 _ ?_
    intro e he
    rcases (mem_checkReachability_iff b e).mp he with ⟨-, -, s1, -, -, rfl⟩ | ⟨-, -, -, rfl⟩ <;>
      simp
  rw [hAlways, hAcc, hReach]
  unfold Builder.checkRequireTotalTransitions
  rw [if_neg (by simp [hT])]
  rw [count_total_flatMap b.transitions s sym b.symbols hy b.states hs]
  simp

theorem total_check_one_failure_per_missing_pair_witness :
    (Builder.mk [0, 1] [5, 6] true 0 [0] [(⟨0, 5⟩, 1)]
        { requireTotalTransitions := true }).buildErrors.count
        (BuildError.missingTransition 1 6) =
      if 1 ∈ [0, 1] ∧ 6 ∈ [5, 6] ∧
          mapLookup [((⟨0, 5⟩ : TransitionKey Nat Nat), 1)] ⟨1, 6⟩ = none
      then 1 else 0 :=
  total_check_one_failure_per_missing_pair
    (Builder.mk [0, 1] [5, 6] true 0 [0] [(⟨0, 5⟩, 1)] { requireTotalTransitions := true })
    rfl (by decide) (by decide) 1 6

/-- The builders obtainable from `NewBuilder` through the public mutating
API (`AddState`, `AddSymbol`, `SetInitial`, `On` when it does not panic). -/
inductive APIBuilt [Inhabited S] : Builder S Sym → Prop where
  | new (opts : buildOptions) : APIBuilt (NewBuilder S Sym opts)
  | addState (b : Builder S Sym) (s : S) (acc : Bool) :
      APIBuilt b → APIBuilt (b.AddState s acc)
  | addSymbol (b : Builder S Sym) (y : Sym) :
      APIBuilt b → APIBuilt (b.AddSymbol y)
  | setInitial (b : Builder S Sym) (s : S) :
      APIBuilt b → APIBuilt (b.SetInitial s)
  | onTrans (b b1 : Builder S Sym) (f : S) (y : Sym) (t : S) :
      APIBuilt b → b.On f y t = some b1 → APIBuilt b1

/-- C10: every public Builder operation preserves F ⊆ Q, so for any builder
reachable through the public API the accepting set is a subset of the state
set and the `accepting state unknown` validation branch can never fire. -/
theorem api_builder_accepting_subset [Inhabited S] (b : Builder S Sym) (hb : APIBuilt b) :
    (∀ s ∈ b.accepting, s ∈ b.states) ∧
    ∀ s, BuildError.acceptingUnknown s ∉ b.buildErrors := by
  have hsub : ∀ s ∈ b.accepting, s ∈ b.states := by
    induction hb with
    | new opts => simp [NewBuilder]
    | addState b s acc hb ih =>
      intro x hx
      unfold Builder.AddState at hx ⊢
      simp only [mem_setInsert]
      by_cases hacc : acc
      · rw [if_pos hacc] at hx
        rcases (mem_setInsert _ _ _).mp hx with h | h
        · exact Or.inl (ih x h)
        · exact Or.inr h
      · rw [if_neg hacc] at hx
        exact Or.inl (ih x hx)
    | addSymbol b y hb ih => exact ih
    | setInitial b s hb ih =>
      intro x hx
      unfold Builder.SetInitial at hx ⊢
      simp only [mem_setInsert]
      exact Or.inl (ih x hx)
    | onTrans b b1 f y t hb hOn ih =>
      simp only [Builder.On] at hOn
      split at hOn
      · exact absurd hOn (by simp)
      · injection hOn with hOn
        subst hOn
        intro x hx
        simp only [mem_setInsert]
        exact Or.inl (Or.inl (ih x hx))
  refine ⟨hsub, ?_⟩
  intro s hmem
  rw [mem_buildErrors_iff] at hmem
  simp only [BuildError.acceptingUnknown.injEq] at hmem
  rcases hmem with h | h | h | ⟨s1, hs1, hns, rfl⟩ | ⟨kv, -, h⟩ | h | h | h | h
  · simp at h
  · simp at h
  · simp at h
  · exact hns (hsub s1 hs1)
  · rcases h with ⟨-, h2⟩ | ⟨-, h2⟩ | ⟨-, h2⟩ <;> simp at h2
  · simp at h
  · simp at h
  · simp at h
  · simp at h

theorem api_builder_accepting_subset_witness :
    BuildError.acceptingUnknown 3 ∉ ((NewBuilder Nat Nat {}).AddState 3 true).buildErrors :=
  (api_builder_accepting_subset ((NewBuilder Nat Nat {}).AddState 3 true)
    (APIBuilt.addState (NewBuilder Nat Nat {}) 3 true (APIBuilt.new {}))).2 3

/-- One edge of the δ graph: some recorded transition leads from `a` to `c`. -/
def EdgeRel (trans : List (TransitionKey S Sym × S)) (a c : S) : Prop :=
  ∃ kv ∈ trans, kv.1.From = a ∧ kv.2 = c

/-- Reachability relation: `s` is reachable from `q0` by following zero or more recorded
transitions — the property the BFS in `checkReachability` decides. -/
def ReachableRel (trans : List (TransitionKey S Sym × S)) (q0 s : S) : Prop :=
  Relation.ReflTransGen (EdgeRel trans) q0 s

theorem subset_setInsert {A : Type} [DecidableEq A] (l : List A) (a : A) :
    l ⊆ setInsert l a :=
  fun _ hx => (mem_setInsert _ _ _).mpr (Or.inl hx)

theorem subset_reachStep (l : List (TransitionKey S Sym × S)) :
    ∀ (acc : List S), acc ⊆ reachStep l acc := by
  unfold reachStep
  induction l with
  | nil => intro acc; simp
  | cons hd rest ih =>
    intro acc
    rw [List.foldl_cons]
    refine List.Subset.trans ?_ (ih _)
    split
    · exact subset_setInsert acc hd.2
    · exact fun x h => h

theorem target_mem_reachStep (l : List (TransitionKey S Sym × S)) :
    ∀ (acc : List S) (kv : TransitionKey S Sym × S),
      kv ∈ l → kv.1.From ∈ acc → kv.2 ∈ reachStep l acc := by
  unfold reachStep
  induction l with
  | nil => intro acc kv h; simp at h
  | cons hd rest ih =>
    intro acc kv hkv hfrom
    rw [List.foldl_cons]
    rcases List.mem_cons.mp hkv with rfl | hkv
    · refine subset_reachStep rest _ ?_
      rw [if_pos hfrom]
      exact (mem_setInsert _ _ _).mpr (Or.inr rfl)
    · refine ih _ kv hkv ?_
      split
      · exact subset_setInsert acc hd.2 hfrom
      · exact hfrom

theorem reachStep_sound (trans : List (TransitionKey S Sym × S)) (q0 : S) :
    ∀ (l : List (TransitionKey S Sym × S)), l ⊆ trans →
    ∀ (acc : List S), (∀ x ∈ acc, ReachableRel trans q0 x) →
    ∀ x ∈ l.foldl (fun acc kv => if kv.1.From ∈ acc then setInsert acc kv.2 else acc) acc,
      ReachableRel trans q0 x := by
  intro l
  induction l with
  | nil => intro _ acc hacc x hx; exact hacc x hx
  | cons hd rest ih =>
    intro hsub acc hacc x hx
    rw [List.foldl_cons] at hx
    refine ih (fun kv h => hsub (List.mem_cons_of_mem hd h)) _ ?_ x hx
    intro y hy
    by_cases hfrom : hd.1.From ∈ acc
    · rw [if_pos hfrom] at hy
      rcases (mem_setInsert _ _ _).mp hy with hy | rfl
      · exact hacc y hy
      · exact (hacc hd.1.From hfrom).tail
          ⟨hd, hsub (List.mem_cons_self hd rest), rfl, rfl⟩
    · rw [if_neg hfrom] at hy
      exact hacc y hy

theorem reachableFrom_sound (trans : List (TransitionKey S Sym × S)) (q0 : S) :
    ∀ x ∈ reachableFrom trans q0, ReachableRel trans q0 x := by
  have main : ∀ (n : Nat) (acc : List S), (∀ x ∈ acc, ReachableRel trans q0 x) →
      ∀ x ∈ (reachStep trans)^[n] acc, ReachableRel trans q0 x := by
    intro n
    induction n with
    | zero => intro acc hacc x hx; exact hacc x hx
    | succ n ih =>
      intro acc hacc x hx
      rw [Function.iterate_succ_apply] at hx
      exact ih _ (reachStep_sound trans q0 trans (fun _ h => h) acc hacc) x hx
  intro x hx
  refine main trans.length [q0] ?_ x hx
  intro y hy
  rw [List.mem_singleton] at hy
  subst hy
  exact Relation.ReflTransGen.refl

theorem reachStep_provenance (l : List (TransitionKey S Sym × S)) :
    ∀ (acc : List S) (x : S),
      x ∈ reachStep l acc → x ∈ acc ∨ x ∈ l.map (fun kv => kv.2) := by
  unfold reachStep
  induction l with
  | nil => intro acc x hx; exact Or.inl hx
  | cons hd rest ih =>
    intro acc x hx
    rw [List.foldl_cons] at hx
    rcases ih _ x hx with hx | hx
    · by_cases hfrom : hd.1.From ∈ acc
      · rw [if_pos hfrom] at hx
        rcases (mem_setInsert _ _ _).mp hx with hx | rfl
        · exact Or.inl hx
        · exact Or.inr (by simp)
      · rw [if_neg hfrom] at hx
        exact Or.inl hx
    · exact Or.inr (by simp [hx])

theorem setInsert_nodup {A : Type} [DecidableEq A] (l : List A) (a : A) (h : l.Nodup) :
    (setInsert l a).Nodup := by
  unfold setInsert
  split
  · exact h
  · simp [List.nodup_append, h]
    assumption

theorem reachStep_nodup (l : List (TransitionKey S Sym × S)) :
    ∀ (acc : List S), acc.Nodup → (reachStep l acc).Nodup := by
  unfold reachStep
  induction l with
  | nil => intro acc h; exact h
  | cons hd rest ih =>
    intro acc h
    rw [List.foldl_cons]
    refine ih _ ?_
    split
    · exact setInsert_nodup _ _ h
    · exact h

theorem reachStep_append_form (l : List (TransitionKey S Sym × S)) :
    ∀ (acc : List S), ∃ s, reachStep l acc = acc ++ s := by
  unfold reachStep
  induction l with
  | nil => intro acc; exact ⟨[], by simp⟩
  | cons hd rest ih =>
    intro acc
    rw [List.foldl_cons]
    by_cases hfrom : hd.1.From ∈ acc
    · rw [if_pos hfrom]
      by_cases hmem : hd.2 ∈ acc
      · obtain ⟨s, hs⟩ := ih acc
        exact ⟨s, by rw [show setInsert acc hd.2 = acc from by simp [setInsert, hmem], hs]⟩
      · obtain ⟨s, hs⟩ := ih (acc ++ [hd.2])
        refine ⟨[hd.2] ++ s, ?_⟩
        rw [show setInsert acc hd.2 = acc ++ [hd.2] from by simp [setInsert, hmem], hs,
          List.append_assoc]
    · rw [if_neg hfrom]
      exact ih acc

theorem iterate_reachStep_nodup (trans : List (TransitionKey S Sym × S)) (q0 : S) :
    ∀ (n : Nat), ((reachStep trans)^[n] [q0]).Nodup := by
  intro n
  induction n with
  | zero => simp
  | succ n ih =>
    rw [Function.iterate_succ_apply']
    exact reachStep_nodup trans _ ih

theorem iterate_reachStep_provenance (trans : List (TransitionKey S Sym × S)) (q0 : S) :
    ∀ (n : Nat), ∀ x ∈ (reachStep trans)^[n] [q0],
      x ∈ q0 :: trans.map (fun kv => kv.2) := by
  intro n
  induction n with
  | zero =>
    intro x hx
    simp only [Function.iterate_zero, id_eq] at hx
    rw [List.mem_singleton] at hx
    simp [hx]
  | succ n ih =>
    intro x hx
    rw [Function.iterate_succ_apply'] at hx
    rcases reachStep_provenance trans _ x hx with hx | hx
    · exact ih x hx
    · exact List.mem_cons_of_mem q0 hx

theorem subset_iterate_reachStep (trans : List (TransitionKey S Sym × S)) :
    ∀ (n : Nat) (acc : List S), acc ⊆ (reachStep trans)^[n] acc := by
  intro n
  induction n with
  | zero => intro acc; exact fun x h => h
  | succ n ih =>
    intro acc
    rw [Function.iterate_succ_apply]
    exact List.Subset.trans (subset_reachStep trans acc) (ih _)

/-- After `trans.length` full passes the reached list is a fixed point of one
more pass: the worklist traversal has saturated. -/
theorem reachStep_fix (trans : List (TransitionKey S Sym × S)) (q0 : S) :
    reachStep trans (reachableFrom trans q0) = reachableFrom trans q0 := by
  unfold reachableFrom
  by_contra hne
  have hall : ∀ k, k ≤ trans.length →
      reachStep trans ((reachStep trans)^[k] [q0]) ≠ (reachStep trans)^[k] [q0] := by
    intro k hk hfix
    apply hne
    have hNk : (reachStep trans)^[trans.length] [q0] = (reachStep trans)^[k] [q0] := by
      have h1 : trans.length = (trans.length - k) + k := by omega
      rw [h1, Function.iterate_add_apply]
      exact Function.iterate_fixed hfix (trans.length - k)
    rw [hNk]
    exact hfix
  have hgrow : ∀ k, k ≤ trans.length →
      k + 2 ≤ ((reachStep trans)^[k + 1] [q0]).length := by
    intro k
    induction k with
    | zero =>
      intro _
      obtain ⟨s, hs⟩ := reachStep_append_form trans [q0]
      have hne0 := hall 0 (by omega)
      simp only [Function.iterate_zero, id] at hne0
      rw [Function.iterate_one, hs]
      rcases s with _ | ⟨a, s1⟩
      · exact absurd (by simpa using hs) hne0
      · simp only [List.length_append, List.length_cons, List.length_singleton]
        omega
    | succ k ih =>
      intro hk
      have h1 := ih (by omega)
      obtain ⟨s, hs⟩ := reachStep_append_form trans ((reachStep trans)^[k + 1] [q0])
      have hne1 := hall (k + 1) hk
      rw [Function.iterate_succ_apply', hs]
      rcases s with _ | ⟨a, s1⟩
      · exact absurd (by simpa using hs) hne1
      · simp only [List.length_append, List.length_cons]
        omega
  have hbound : ((reachStep trans)^[trans.length + 1] [q0]).length ≤ trans.length + 1 := by
    have hnd := iterate_reachStep_nodup trans q0 (trans.length + 1)
    have hsub := iterate_reachStep_provenance trans q0 (trans.length + 1)
    calc ((reachStep trans)^[trans.length + 1] [q0]).length
        = ((reachStep trans)^[trans.length + 1] [q0]).toFinset.card :=
          (List.toFinset_card_of_nodup hnd).symm
      _ ≤ (q0 :: trans.map (fun kv => kv.2)).toFinset.card := by
          refine Finset.card_le_card ?_
          intro x hx
          rw [List.mem_toFinset] at hx ⊢
          exact hsub x hx
      _ ≤ (q0 :: trans.map (fun kv => kv.2)).length := List.toFinset_card_le _
      _ = trans.length + 1 := by simp
  have := hgrow trans.length (le_refl _)
  omega

theorem reachableFrom_complete (trans : List (TransitionKey S Sym × S)) (q0 x : S)
    (h : ReachableRel trans q0 x) : x ∈ reachableFrom trans q0 := by
  induction h with
  | refl =>
    exact subset_iterate_reachStep trans trans.length [q0] (by simp)
  | tail hR hEdge ih =>
    obtain ⟨kv, hkv, hfrom, hto⟩ := hEdge
    subst hto
    rw [← reachStep_fix trans q0]
    exact target_mem_reachStep trans _ kv hkv (hfrom ▸ ih)

/-- The reached set computed by the traversal is exactly reachability along
recorded transitions. -/
theorem mem_reachableFrom_iff (trans : List (TransitionKey S Sym × S)) (q0 x : S) :
    x ∈ reachableFrom trans q0 ↔ ReachableRel trans q0 x :=
  ⟨reachableFrom_sound trans q0 x, reachableFrom_complete trans q0 x⟩

theorem count_unreach_row (reached : List S) (s : S) :
    ∀ (states : List S), states.Nodup →
      (states.filterMap fun s1 =>
        if s1 ∈ reached then none
        else some (BuildError.unreachableState s1 : BuildError S Sym)).count
        (BuildError.unreachableState s) =
      if s ∈ states ∧ s ∉ reached then 1 else 0
  | [], _ => by simp
  | a :: rest, h => by
    have ha : a ∉ rest := (List.nodup_cons.mp h).1
    have ih := count_unreach_row reached s rest (List.nodup_cons.mp h).2
    by_cases hm : a ∈ reached
    · have hstep : List.filterMap
          (fun s1 => if s1 ∈ reached then none
            else some (BuildError.unreachableState s1 : BuildError S Sym)) (a :: rest) =
          List.filterMap
          (fun s1 => if s1 ∈ reached then none
            else some (BuildError.unreachableState s1 : BuildError S Sym)) rest := by
        simp [List.filterMap_cons, hm]
      rw [hstep, ih]
      by_cases has : s = a
      · subst has
        simp [ha, hm]
      · simp [List.mem_cons, has]
    · have hstep : List.filterMap
          (fun s1 => if s1 ∈ reached then none
            else some (BuildError.unreachableState s1 : BuildError S Sym)) (a :: rest) =
          BuildError.unreachableState a :: List.filterMap
          (fun s1 => if s1 ∈ reached then none
            else some (BuildError.unreachableState s1 : BuildError S Sym)) rest := by
        simp [List.filterMap_cons, hm]
      rw [hstep, List.count_cons, ih]
      by_cases has : s = a
      · subst has
        simp [ha, hm]
      · simp [List.mem_cons, has, Ne.symm has]

theorem checkReachability_count_unreach (b : Builder S Sym)
    (hI : b.initialSet = true) (hU : b.options.errorOnUnreachableStates = true)
    (hnod : b.states.Nodup) (s : S) :
    b.checkReachability.count (BuildError.unreachableState s) =
      if s ∈ b.states ∧ s ∉ reachableFrom b.transitions b.initialState then 1 else 0 := by
  unfold Builder.checkReachability
  rw [if_neg (by simp [hI, hU])]
  simp only [hU, if_true, List.count_append]
  rw [count_unreach_row (reachableFrom b.transitions b.initialState) s b.states hnod]
  have h2 : (if b.options.errorWhenNoAcceptingReachable = true then
      if (b.accepting.any fun s1 =>
          decide (s1 ∈ reachableFrom b.transitions b.initialState)) = true then []
      else [(BuildError.noAcceptingReachable : BuildError S Sym)]
    else []).count (BuildError.unreachableState s) = 0 := by
    split
    · split <;> simp [List.count_cons]
    · simp
  rw [h2]
  simp

/-- C5: with the require-all-states-reachable policy on, a builder containing
a registered state with no transition path from q0 fails `Build`, with
exactly one `unreachable state` failure for that state; the same builder
contents with the policies disabled (and all always-on checks satisfied)
builds successfully. -/
theorem reachability_policy_spec (b : Builder S Sym) (hI : b.initialSet = true) :
    (b.options.errorOnUnreachableStates = true →
      ∀ s, s ∈ b.states → ¬ ReachableRel b.transitions b.initialState s →
        ∃ es, b.Build = Except.error es ∧ BuildError.unreachableState s ∈ es ∧
          (b.states.Nodup → es.count (BuildError.unreachableState s) = 1)) ∧
    (b.states ≠ [] → b.symbols ≠ [] → (∀ s ∈ b.accepting, s ∈ b.states) →
      (∀ kv ∈ b.transitions,
        kv.1.From ∈ b.states ∧ kv.1.Symbol ∈ b.symbols ∧ kv.2 ∈ b.states) →
      ∃ m, (Builder.mk b.states b.symbols b.initialSet b.initialState b.accepting
        b.transitions {}).Build = Except.ok m) := by
  constructor
  · intro hU s hsQ hnr
    have hnr2 : s ∉ reachableFrom b.transitions b.initialState :=
      fun hmem => hnr ((mem_reachableFrom_iff b.transitions b.initialState s).mp hmem)
    have hmem : BuildError.unreachableState s ∈ b.buildErrors :=
      (mem_buildErrors_iff b _).mpr
        (Or.inr (Or.inr (Or.inr (Or.inr (Or.inr (Or.inr (Or.inr (Or.inl
          ⟨hI, hU, s, hsQ, hnr2, rfl⟩))))))))
    have hne : ¬ b.buildErrors.isEmpty = true := by
      rw [List.isEmpty_iff]
      intro h0
      rw [h0] at hmem
      simp at hmem
    refine ⟨b.buildErrors, ?_, hmem, ?_⟩
    · unfold Builder.Build
      rw [if_neg hne]
    · intro hnod
      have z1 : ∀ (l : List (BuildError S Sym)),
          (∀ e ∈ l, e ≠ BuildError.unreachableState s) →
          l.count (BuildError.unreachableState s) = 0 := by
        intro l hl
        exact List.count_eq_zero.mpr fun hm => hl _ hm rfl
      unfold Builder.buildErrors
      simp only [List.count_append]
      have hA : b.alwaysOnErrors.count (BuildError.unreachableState s) = 0 := by
        refine z1 _ ?_
        intro e he
        unfold Builder.alwaysOnErrors at he
        rcases List.mem_append.mp he with he | he
        rotate_left
        · rcases List.mem_flatMap.mp he with ⟨kv, -, hkv⟩
          rcases List.mem_append.mp hkv with h | h
          · rcases List.mem_append.mp h with h1 | h1 <;>
              · rcases (memElseNil _ _).mp h1 with ⟨-, h2⟩
                simp at h2
                simp [h2]
          · rcases (memElseNil _ _).mp h with ⟨-, h2⟩
            simp at h2
            simp [h2]
        rcases List.mem_append.mp he with he | he
        rotate_left
        · rcases List.mem_filterMap.mp he with ⟨x, -, hx⟩
          rcases (iteNoneSomeEq _ _).mp hx with ⟨-, rfl⟩
          simp
        rcases List.mem_append.mp he with he | he
        rotate_left
        · rcases (memIfNilElse _ _).mp he with ⟨-, h⟩
          simp at h
          simp [h]
        rcases List.mem_append.mp he with he | he
        · rcases (memIfNilElse _ _).mp he with ⟨-, h⟩
          simp at h
          simp [h]
        · rcases (memIfNilElse _ _).mp he with ⟨-, h⟩
          simp at h
          simp [h]
      have hT : b.checkRequireTotalTransitions.count (BuildError.unreachableState s) = 0 := by
        refine z1 _ ?_
        intro e he
        rcases (mem_checkTotal_iff b e).mp he with ⟨-, -, -, -, -, -, rfl⟩
        simp
      have hAcc : b.checkRequireAtLeastOneAccepting.count
          (BuildError.unreachableState s) = 0 := by
        refine z1 _ ?_
        intro e he
        rcases (mem_checkAccepting_iff b e).mp he with ⟨-, -, rfl⟩
        simp
      rw [hA, hT, hAcc, checkReachability_count_unreach b hI hU hnod s]
      simp [hsQ, hnr2]
  · intro hQ hSym hFsub hTrans
    have hempty : (Builder.mk b.states b.symbols b.initialSet b.initialState b.accepting
        b.transitions {}).buildErrors = [] := by
      rw [List.eq_nil_iff_forall_not_mem]
      intro e he
      rw [mem_buildErrors_iff] at he
      rcases he with ⟨h, -⟩ | ⟨h, -⟩ | ⟨h, -⟩ | ⟨s1, hacc, hns, -⟩ | ⟨kv, hkv, h⟩ |
        ⟨h, -⟩ | ⟨h, -⟩ | ⟨-, h, -⟩ | ⟨-, h, -⟩
      · rw [hI] at h
        simp at h
      · exact hQ h
      · exact hSym h
      · exact hns (hFsub s1 hacc)
      · rcases h with ⟨h, -⟩ | ⟨h, -⟩ | ⟨h, -⟩
        · exact h (hTrans kv hkv).1
        · exact h (hTrans kv hkv).2.1
        · exact h (hTrans kv hkv).2.2
      · simp at h
      · simp at h
      · simp at h
      · simp at h
    refine ⟨Machine.mk b.initialState b.accepting b.transitions, ?_⟩
    unfold Builder.Build
    rw [if_pos (by rw [List.isEmpty_iff, hempty])]

theorem reachability_policy_spec_witness :
    (∃ es, (Builder.mk [0, 1] [7] true 0 [0]
        ([] : List (TransitionKey Nat Nat × Nat))
        { errorOnUnreachableStates := true }).Build = Except.error es ∧
      BuildError.unreachableState 1 ∈ es ∧
      (([0, 1] : List Nat).Nodup → es.count (BuildError.unreachableState 1) = 1)) ∧
    ∃ m, (Builder.mk [0, 1] [7] true 0 [0] ([] : List (TransitionKey Nat Nat × Nat))
      {}).Build = Except.ok m :=
  ⟨(reachability_policy_spec (Builder.mk [0, 1] [7] true 0 [0] []
      { errorOnUnreachableStates := true }) rfl).1 rfl 1 (by decide)
      (fun hR => absurd ((mem_reachableFrom_iff [] 0 1).mpr hR) (by decide)),
   (reachability_policy_spec (Builder.mk [0, 1] [7] true 0 [0] []
      { errorOnUnreachableStates := true }) rfl).2 (by decide) (by decide)
      (by decide) (by decide)⟩

/-- The options the mod3 example passes to `NewBuilder`. -/
def mod3Options : buildOptions :=
  { preventOverwriteTransitions := true, errorOnUnreachableStates := true,
    errorWhenNoAcceptingReachable := true }

/-- mod3.Build from `examples/mod3`: three accepting states S0/S1/S2,
initial S0, alphabet {'0','1'}, the six remainder transitions, then `Build`.
The `Option` layer carries the possibility of an `On` panic. -/
def mod3Build : Option (Except (List (BuildError String Char)) (Machine String Char)) :=
  let b1 := ((((NewBuilder String Char mod3Options).AddState "S0" true).AddState "S1"
    true).AddState "S2" true).SetInitial "S0"
  let b2 := (b1.AddSymbol '0').AddSymbol '1'
  (b2.On "S0" '0' "S0").bind fun b3 =>
  (b3.On "S0" '1' "S1").bind fun b4 =>
  (b4.On "S1" '0' "S2").bind fun b5 =>
  (b5.On "S1" '1' "S0").bind fun b6 =>
  (b6.On "S2" '0' "S1").bind fun b7 =>
  (b7.On "S2" '1' "S2").bind fun b8 =>
  some b8.Build

/-- The machine the mod3 example builds. -/
def mod3Machine : Machine String Char :=
  { initialState := "S0", accepting := ["S0", "S1", "S2"],
    transitions := [(⟨"S0", '0'⟩, "S0"), (⟨"S0", '1'⟩, "S1"), (⟨"S1", '0'⟩, "S2"),
      (⟨"S1", '1'⟩, "S0"), (⟨"S2", '0'⟩, "S1"), (⟨"S2", '1'⟩, "S2")] }

theorem mod3_lookup_bad (st : String) (c : Char) (h0 : c ≠ '0') (h1 : c ≠ '1') :
    mapLookup mod3Machine.transitions ⟨st, c⟩ = none := by
  simp [mod3Machine, mapLookup, TransitionKey.mk.injEq, Ne.symm h0, Ne.symm h1]

theorem mod3_lookup_good (st : String) (hst : st ∈ ["S0", "S1", "S2"]) (c : Char)
    (hc : c = '0' ∨ c = '1') :
    ∃ next ∈ ["S0", "S1", "S2"], mapLookup mod3Machine.transitions ⟨st, c⟩ = some next := by
  simp only [List.mem_cons, List.mem_singleton, List.not_mem_nil, or_false] at hst
  rcases hst with rfl | rfl | rfl <;> rcases hc with rfl | rfl <;>
    exact ⟨_, by decide, rfl⟩

theorem mod3_bad_symbol_errors : ∀ (input : List Char) (r : Runner String Char),
    r.machine = mod3Machine → r.state ∈ ["S0", "S1", "S2"] →
    (∃ c ∈ input, c ≠ '0' ∧ c ≠ '1') →
    ∃ e r1, r.runList input = (some e, r1) := by
  intro input
  induction input with
  | nil =>
    intro r _ _ hbad
    simp at hbad
  | cons c rest ih =>
    intro r hm hs hbad
    by_cases hgood : c = '0' ∨ c = '1'
    · obtain ⟨next, hnext, hlk⟩ := mod3_lookup_good r.state hs c hgood
      have hstep : r.Step c = (none, { r with state := next }) := by
        unfold Runner.Step
        rw [hm, hlk]
      have hbad2 : ∃ c0 ∈ rest, c0 ≠ '0' ∧ c0 ≠ '1' := by
        obtain ⟨c0, hc0, hne⟩ := hbad
        rcases List.mem_cons.mp hc0 with rfl | hc0
        · rcases hgood with rfl | rfl
          · exact absurd rfl hne.1
          · exact absurd rfl hne.2
        · exact ⟨c0, hc0, hne⟩
      obtain ⟨e, r1, hrun⟩ := ih { r with state := next } hm hnext hbad2
      refine ⟨e, r1, ?_⟩
      unfold Runner.runList
      rw [hstep]
      exact hrun
    · push_neg at hgood
      have hstep : r.Step c = (some ⟨r.state, c⟩, r) := by
        unfold Runner.Step
        rw [hm, mod3_lookup_bad r.state c hgood.1 hgood.2]
      refine ⟨⟨r.state, c⟩, r, ?_⟩
      unfold Runner.runList
      rw [hstep]

set_option maxRecDepth 20000 in
/-- C9: the mod3 example builds the three-state remainder automaton, and on
it Eval returns S2 for "1110", S0 for "1111", S1 for "1101", S0 for the empty
input, and fails with a `TransitionError` on any input containing a symbol
outside {'0','1'}. -/
theorem mod3_end_to_end :
    ∃ m, mod3Build = some (Except.ok m) ∧
      m.Eval ['1', '1', '1', '0'] = Except.ok "S2" ∧
      m.Eval ['1', '1', '1', '1'] = Except.ok "S0" ∧
      m.Eval ['1', '1', '0', '1'] = Except.ok "S1" ∧
      m.Eval [] = Except.ok "S0" ∧
      ∀ (input : List Char), (∃ c ∈ input, c ≠ '0' ∧ c ≠ '1') →
        ∃ e, m.Eval input = Except.error e := by
  refine ⟨mod3Machine, rfl, rfl, rfl, rfl, rfl, ?_⟩
  intro input hbad
  obtain ⟨e, r1, hrun⟩ :=
    mod3_bad_symbol_errors input mod3Machine.Start rfl (by decide) hbad
  refine ⟨e, ?_⟩
  unfold Machine.Eval
  rw [hrun]

theorem mod3_end_to_end_witness :
    ∃ m, mod3Build = some (Except.ok m) ∧ ∃ e, m.Eval ['2'] = Except.error e := by
  obtain ⟨m, hbuild, -, -, -, -, hbad⟩ := mod3_end_to_end
  exact ⟨m, hbuild, hbad ['2'] ⟨'2', by decide, by decide, by decide⟩⟩

end FsmGen
